import Mathlib

/-!
Verification development for the shaliwood-voice-bot repository.

Shallow embedding conventions:
* Python `str` values are modelled as `List Char` (a Python string is a
  sequence of Unicode code points), abbreviated `Str`.
* Python `dict[str, str]` values are modelled as insertion-ordered
  association lists `List (Str × Str)`; JSON objects delivered by the
  language model carry string fields per the extraction prompt.
* A Python function that may raise is modelled with `Except Unit` (the
  particular exception type is irrelevant to the claims); a `try/except`
  block is modelled by matching on that result.
* External collaborators (the OpenAI chat call, `json.loads`, the
  Telegram transport, the Google-Sheets backend, the wall clock) are
  modelled as explicit parameters describing their observable outcome,
  so every definition stays executable.
-/

set_option maxRecDepth 4000

/-- Python strings as sequences of code points. -/
abbrev Str := List Char

/-! ### Whitespace and basic string helpers (Python semantics) -/

/-- The characters Python's `str.split()` / `str.strip()` treat as
whitespace (ASCII whitespace plus the Unicode space separators CPython
recognises). -/
def pyWhitespace : Str :=
  [' ', '\t', '\n', '\r', '\x0b', '\x0c',
   '\x1c', '\x1d', '\x1e', '\x1f', '\x85', '\xa0',
   ' ', ' ', ' ', ' ', ' ', ' ', ' ',
   ' ', ' ', ' ', ' ', ' ', ' ', ' ',
   ' ', ' ', '　']

def isSpaceChar (c : Char) : Bool := pyWhitespace.contains c

/-- Python `str.strip()` with no arguments. -/
def pyStrip (s : Str) : Str :=
  ((s.dropWhile isSpaceChar).reverse.dropWhile isSpaceChar).reverse

/-- Numeric value of a run of decimal digit characters (the `int()`
conversion `strptime` applies to a matched digit group). -/
def digitsToNat (ds : Str) : Nat :=
  ds.foldl (fun a c => 10 * a + (c.toNat - 48)) 0

/-- Two-digit zero-padded rendering, as `strftime` `%d`/`%m`/`%H`/`%M`
produce for values below 100. -/
def pad2 (n : Nat) : Str := [Nat.digitChar (n / 10), Nat.digitChar (n % 10)]

/-- Four-digit zero-padded rendering of a year (`strftime` `%Y` for the
`datetime` year range 1..9999). -/
def pad4 (n : Nat) : Str :=
  [Nat.digitChar (n / 1000), Nat.digitChar (n / 100 % 10),
   Nat.digitChar (n / 10 % 10), Nat.digitChar (n % 10)]

/-! ### Calendar arithmetic (Python `datetime.date`, proleptic Gregorian) -/

def isLeap (y : Nat) : Bool := y % 4 = 0 ∧ (y % 100 ≠ 0 ∨ y % 400 = 0)

def days_in_month (m y : Nat) : Nat :=
  match m with
  | 1 => 31
  | 2 => if isLeap y then 29 else 28
  | 3 => 31
  | 4 => 30
  | 5 => 31
  | 6 => 30
  | 7 => 31
  | 8 => 31
  | 9 => 30
  | 10 => 31
  | 11 => 30
  | 12 => 31
  | _ => 0

def days_before_month (m y : Nat) : Nat :=
  [0, 31, 59, 90, 120, 151, 181, 212, 243, 273, 304, 334].getD (m - 1) 0 +
    (if 2 < m ∧ isLeap y then 1 else 0)

/-- `datetime.date(y, m, d).toordinal()`: 01/01/0001 is ordinal 1. -/
def toOrdinal (y m d : Nat) : Nat :=
  365 * (y - 1) + (y - 1) / 4 - (y - 1) / 100 + (y - 1) / 400 +
    days_before_month m y + d

/-- `datetime.date.weekday()`: Monday is 0, Sunday is 6
(01/01/0001 is a Monday in the proleptic Gregorian calendar). -/
def pyWeekday (d m y : Nat) : Nat := (toOrdinal y m d + 6) % 7

/-- The calendar-validity check `datetime(year, month, day)` performs
(year range 1..9999). -/
def validDate (d m y : Nat) : Prop :=
  1 ≤ d ∧ d ≤ days_in_month m y ∧ 1 ≤ m ∧ m ≤ 12 ∧ 1 ≤ y ∧ y ≤ 9999

instance (d m y : Nat) : Decidable (validDate d m y) := by
  unfold validDate; infer_instance

/-! ### `strptime`-style field parsing

Each `strptime` directive matches a run of 1-2 (exactly 4 for `%Y` and
exactly 2 for `%y`) decimal digits bounded by the value ranges of CPython's `_strptime`
regexes, the full input must be consumed, and the parsed values must
form a valid date/time or `strptime` raises `ValueError`.  Since every
format in the source separates numeric fields by non-digit literals, a
match must consume each maximal digit run whole, which the functions
below implement directly. -/

/-- Match a maximal leading digit run of length `minL..maxL` whose value
lies in `lo..hi`; return the value and the rest of the input. -/
def numField (minL maxL lo hi : Nat) (cs : Str) : Option (Nat × Str) :=
  let ds := cs.takeWhile Char.isDigit
  let rest := cs.dropWhile Char.isDigit
  let v := digitsToNat ds
  if minL ≤ ds.length ∧ ds.length ≤ maxL ∧ lo ≤ v ∧ v ≤ hi then some (v, rest)
  else none

/-- Match one literal separator character. -/
def expectCh (c : Char) : Str → Option Str
  | [] => none
  | x :: xs => if x = c then some xs else none

/-- `strptime` with format `%d SEP %m SEP %Y`. -/
def parse_dmy (sep : Char) (cs : Str) : Option (Nat × Nat × Nat) :=
  match numField 1 2 1 31 cs with
  | none => none
  | some (d, r1) =>
    match expectCh sep r1 with
    | none => none
    | some r2 =>
      match numField 1 2 1 12 r2 with
      | none => none
      | some (m, r3) =>
        match expectCh sep r3 with
        | none => none
        | some r4 =>
          match numField 4 4 1 9999 r4 with
          | none => none
          | some (y, r5) =>
            if r5 = [] ∧ d ≤ days_in_month m y then some (d, m, y) else none

/-- `strptime` with format `%Y SEP %m SEP %d`. -/
def parse_ymd (sep : Char) (cs : Str) : Option (Nat × Nat × Nat) :=
  match numField 4 4 1 9999 cs with
  | none => none
  | some (y, r1) =>
    match expectCh sep r1 with
    | none => none
    | some r2 =>
      match numField 1 2 1 12 r2 with
      | none => none
      | some (m, r3) =>
        match expectCh sep r3 with
        | none => none
        | some r4 =>
          match numField 1 2 1 31 r4 with
          | none => none
          | some (d, r5) =>
            if r5 = [] ∧ d ≤ days_in_month m y then some (d, m, y) else none

/-- CPython's `%y` century rule: 0-68 map to 2000-2068, 69-99 to 1969-1999. -/
def expandY2 (v : Nat) : Nat := if v ≤ 68 then 2000 + v else 1900 + v

/-- `strptime` with format `%d SEP %m SEP %y`. -/
def parse_dmy2 (sep : Char) (cs : Str) : Option (Nat × Nat × Nat) :=
  match numField 1 2 1 31 cs with
  | none => none
  | some (d, r1) =>
    match expectCh sep r1 with
    | none => none
    | some r2 =>
      match numField 1 2 1 12 r2 with
      | none => none
      | some (m, r3) =>
        match expectCh sep r3 with
        | none => none
        | some r4 =>
          match numField 2 2 0 99 r4 with
          | none => none
          | some (v, r5) =>
            if r5 = [] ∧ d ≤ days_in_month m (expandY2 v) then
              some (d, m, expandY2 v)
            else none

/-- `strptime` with format `%y SEP %m SEP %d`. -/
def parse_y2md (sep : Char) (cs : Str) : Option (Nat × Nat × Nat) :=
  match numField 2 2 0 99 cs with
  | none => none
  | some (v, r1) =>
    match expectCh sep r1 with
    | none => none
    | some r2 =>
      match numField 1 2 1 12 r2 with
      | none => none
      | some (m, r3) =>
        match expectCh sep r3 with
        | none => none
        | some r4 =>
          match numField 1 2 1 31 r4 with
          | none => none
          | some (d, r5) =>
            if r5 = [] ∧ d ≤ days_in_month m (expandY2 v) then
              some (d, m, expandY2 v)
            else none

/-- The ordered date-format list of `_format_date`:
`['%d/%m/%Y', '%d-%m-%Y', '%Y-%m-%d', '%d.%m.%Y', '%d/%m/%y', '%d-%m-%y', '%y-%m-%d']`. -/
def dateFormats : List (Str → Option (Nat × Nat × Nat)) :=
  [parse_dmy '/', parse_dmy '-', parse_ymd '-', parse_dmy '.',
   parse_dmy2 '/', parse_dmy2 '-', parse_y2md '-']

/-- `strftime('%d/%m/%Y')`. -/
def renderDate (d m y : Nat) : Str := pad2 d ++ '/' :: pad2 m ++ '/' :: pad4 y

/-- `WorkdayDataExtractor._format_date`: try the ordered format list,
first successful parse wins and is re-rendered as DD/MM/YYYY; if no
format matches, the original string is returned unchanged. -/
def format_date (cs : Str) : Str :=
  match dateFormats.findSome? (fun p => p cs) with
  | some (d, m, y) => renderDate d m y
  | none => cs

/-! ### Time formats -/

/-- `strptime` with format `%H SEP %M`. -/
def parse_hm (sep : Char) (cs : Str) : Option (Nat × Nat) :=
  match numField 1 2 0 23 cs with
  | none => none
  | some (h, r1) =>
    match expectCh sep r1 with
    | none => none
    | some r2 =>
      match numField 1 2 0 59 r2 with
      | none => none
      | some (mi, r3) => if r3 = [] then some (h, mi) else none

/-- `strptime` with format `%H:%M:%S`. -/
def parse_hms (cs : Str) : Option (Nat × Nat) :=
  match numField 1 2 0 23 cs with
  | none => none
  | some (h, r1) =>
    match expectCh ':' r1 with
    | none => none
    | some r2 =>
      match numField 1 2 0 59 r2 with
      | none => none
      | some (mi, r3) =>
        match expectCh ':' r3 with
        | none => none
        | some r4 =>
          match numField 1 2 0 59 r4 with
          | none => none
          | some (_, r5) => if r5 = [] then some (h, mi) else none

/-- The trailing ` %p` of a 12-hour format: one-or-more whitespace
characters then a case-insensitive AM/PM marker ending the input.
Returns `true` for PM. -/
def parseMeridiem (cs : Str) : Option Bool :=
  let ws := cs.takeWhile isSpaceChar
  let rest := cs.dropWhile isSpaceChar
  if ws = [] then none
  else
    match rest.map Char.toLower with
    | ['a', 'm'] => some false
    | ['p', 'm'] => some true
    | _ => none

/-- 12-hour to 24-hour conversion as `strptime` performs for `%I %p`. -/
def to24h (h : Nat) (pm : Bool) : Nat :=
  if pm then (if h = 12 then 12 else h + 12)
  else (if h = 12 then 0 else h)

/-- `strptime` with format `%I SEP %M %p`. -/
def parse_imp (sep : Char) (cs : Str) : Option (Nat × Nat) :=
  match numField 1 2 1 12 cs with
  | none => none
  | some (h, r1) =>
    match expectCh sep r1 with
    | none => none
    | some r2 =>
      match numField 1 2 0 59 r2 with
      | none => none
      | some (mi, r3) =>
        match parseMeridiem r3 with
        | none => none
        | some pm => some (to24h h pm, mi)

/-- `strptime` with format `%I:%M:%S %p`. -/
def parse_imsp (cs : Str) : Option (Nat × Nat) :=
  match numField 1 2 1 12 cs with
  | none => none
  | some (h, r1) =>
    match expectCh ':' r1 with
    | none => none
    | some r2 =>
      match numField 1 2 0 59 r2 with
      | none => none
      | some (mi, r3) =>
        match expectCh ':' r3 with
        | none => none
        | some r4 =>
          match numField 1 2 0 59 r4 with
          | none => none
          | some (_, r5) =>
            match parseMeridiem r5 with
            | none => none
            | some pm => some (to24h h pm, mi)

/-- The ordered time-format list of `_format_time`:
`['%H:%M', '%H:%M:%S', '%I:%M %p', '%I:%M:%S %p', '%H.%M', '%I.%M %p']`. -/
def timeFormats : List (Str → Option (Nat × Nat)) :=
  [parse_hm ':', parse_hms, parse_imp ':', parse_imsp, parse_hm '.', parse_imp '.']

/-- `strftime('%H:%M')`. -/
def renderTime (h mi : Nat) : Str := pad2 h ++ ':' :: pad2 mi

/-- `WorkdayDataExtractor._format_time`: first matching format wins and
is re-rendered as HH:MM; on no match the original string is returned. -/
def format_time (cs : Str) : Str :=
  match timeFormats.findSome? (fun p => p cs) with
  | some (h, mi) => renderTime h mi
  | none => cs

/-! ### Dictionaries (Python `dict[str, str]` as insertion-ordered
association lists) -/

/-- A Python dict with string keys and values. -/
abbrev Dict := List (Str × Str)

/-- `data.get(k, '')` — the defaulting lookup `_validate_and_clean_data`
uses for every expected field. -/
def lookupD (d : Dict) (k : Str) : Str :=
  match d.find? (fun p => p.1 = k) with
  | some p => p.2
  | none => []

/-- `d[k] = v` on a Python dict: overwrite in place if the key exists
(keeping insertion order), else append. -/
def setKey (d : Dict) (k v : Str) : Dict :=
  if d.any (fun p => p.1 = k) then
    d.map (fun p => if p.1 = k then (k, v) else p)
  else d ++ [(k, v)]

/-! ### `data_extractor.py` — `_validate_and_clean_data` -/

def dayKey : Str := "day".data
def dateKey : Str := "date".data
def startTimeKey : Str := "start_time".data
def endTimeKey : Str := "end_time".data
def projectNameKey : Str := "project_name".data
def subProjectKey : Str := "sub_project".data
def workDescriptionKey : Str := "work_description".data
def workersKey : Str := "workers".data
def additionalNotesKey : Str := "additional_notes".data

/-- The `expected_fields` list of `_validate_and_clean_data`, in source
order. -/
def expected_fields : List Str :=
  [dayKey, dateKey, startTimeKey, endTimeKey, projectNameKey,
   subProjectKey, workDescriptionKey, workersKey, additionalNotesKey]

/-- The `hebrew_days` table of `_validate_and_clean_data`, indexed by
`datetime.weekday()` (0 = Monday). -/
def hebrew_days : List Str :=
  ["שני".data, "שלישי".data, "רביעי".data, "חמישי".data,
   "שישי".data, "שבת".data, "ראשון".data]

/-- The `date` value of the cleaned dict right before the
`strptime(cleaned_data['date'], '%d/%m/%Y')` call: the input's `date`
value (missing key defaults to the empty string), run through
`_format_date` when non-empty. -/
def normalizedDateOf (data : Dict) : Str :=
  let d0 := lookupD data dateKey
  if d0 = [] then d0 else format_date d0

/-- `WorkdayDataExtractor._validate_and_clean_data`.

The source builds `cleaned_data` by inserting the nine expected fields
in `expected_fields` order and then updating `date`, `start_time`,
`end_time` and `day` in place; since updating an existing key of a
Python dict preserves insertion order, the resulting dict is the literal
below.  `strptime` on an empty or non-DD/MM/YYYY `date` raises
`ValueError`, modelled by `Except.error ()`. -/
def validate_and_clean_data (data : Dict) : Except Unit Dict :=
  let date1 := normalizedDateOf data
  let st0 := lookupD data startTimeKey
  let st1 := if st0 = [] then st0 else format_time st0
  let en0 := lookupD data endTimeKey
  let en1 := if en0 = [] then en0 else format_time en0
  match parse_dmy '/' date1 with
  | none => Except.error ()
  | some (d, m, y) =>
    Except.ok
      [(dayKey, hebrew_days.getD (pyWeekday d m y) []),
       (dateKey, date1),
       (startTimeKey, st1),
       (endTimeKey, en1),
       (projectNameKey, lookupD data projectNameKey),
       (subProjectKey, lookupD data subProjectKey),
       (workDescriptionKey, lookupD data workDescriptionKey),
       (workersKey, lookupD data workersKey),
       (additionalNotesKey, lookupD data additionalNotesKey)]

/-! ### `data_extractor.py` — fallback and `extract_workday_data` -/

/-- A calendar date, used for the `datetime.now()` wall-clock parameter. -/
structure DateDMY where
  d : Nat
  m : Nat
  y : Nat
deriving DecidableEq

/-- The fixed needs-manual-review marker of `_create_fallback_data`. -/
def manualReviewMarker : Str := "מידע חולץ אוטומטית - נדרש עיון ידני".data

/-- `WorkdayDataExtractor._create_fallback_data`: every field empty
except `date` (today, DD/MM/YYYY), `work_description` (the verbatim
transcript) and `additional_notes` (the fixed marker). -/
def create_fallback_data (transcribed_text : Str) (today : DateDMY) : Dict :=
  [(dayKey, []),
   (dateKey, renderDate today.d today.m today.y),
   (startTimeKey, []),
   (endTimeKey, []),
   (projectNameKey, []),
   (subProjectKey, []),
   (workDescriptionKey, transcribed_text),
   (workersKey, []),
   (additionalNotesKey, manualReviewMarker)]

/-- The value a successful `json.loads` can deliver: a JSON object with
string fields, or any non-object value (whose lack of a `.get` method
makes `_validate_and_clean_data` raise `AttributeError`). -/
inductive PyVal where
  | obj (fields : Dict)
  | nonObj
deriving DecidableEq

/-- Outcome of the `chat.completions.create` call: the call raised, or
it returned a message with the given content. -/
inductive LLMOutcome where
  | callFailed
  | replied (content : Str)
deriving DecidableEq

/-- The markdown-fence stripping of `_parse_json_response`: drop a
leading ` ```json ` (7 characters) and a trailing ` ``` ` (3
characters) when present, then `strip()`. -/
def stripCodeFence (content : Str) : Str :=
  let c1 := if "```json".data.isPrefixOf content then content.drop 7 else content
  let c2 := if "```".data.isSuffixOf c1 then c1.take (c1.length - 3) else c1
  pyStrip c2

/-- `WorkdayDataExtractor._parse_json_response`, with `json.loads`
passed in as the external collaborator it is: `loads s = none` models a
`JSONDecodeError` (re-raised as `DataExtractionError`). -/
def parse_json_response (content : Str) (loads : Str → Option PyVal) :
    Option PyVal :=
  loads (stripCodeFence content)

/-- `WorkdayDataExtractor.extract_workday_data`.

The whole body sits in one `try/except Exception` whose handler returns
`_create_fallback_data(transcribed_text)`, so the function is total:
empty/blank transcript, a failed model call, an unparseable or
non-object reply, and a `_validate_and_clean_data` failure all land on
the fallback record.  `reference_date` only enters the prompt text, so
it does not affect the observable result; `today` is the
`datetime.now()` reading and `llm`/`loads` are the external
collaborators' outcomes. -/
def extract_workday_data (transcribed_text : Str)
    (reference_date : Option Str) (today : DateDMY) (llm : LLMOutcome)
    (loads : Str → Option PyVal) : Dict :=
  let _ := reference_date
  if pyStrip transcribed_text = [] then create_fallback_data transcribed_text today
  else
    match llm with
    | .callFailed => create_fallback_data transcribed_text today
    | .replied content =>
      match parse_json_response (pyStrip content) loads with
      | none => create_fallback_data transcribed_text today
      | some .nonObj => create_fallback_data transcribed_text today
      | some (.obj fields) =>
        match validate_and_clean_data fields with
        | .error _ => create_fallback_data transcribed_text today
        | .ok cleaned => cleaned

/-! ### `voice_processor.py` — `process_audio` -/

/-- `VoiceProcessor._extract_workday_data`: returns `None` when the
data extractor failed to initialize (`self.data_extractor is None`);
otherwise delegates to `WorkdayDataExtractor.extract_workday_data`,
which never raises, so the `except` branch returning `None` is dead. -/
def vp_extract_workday_data (extractorAvailable : Bool) (text : Str)
    (reference_date : Option Str) (today : DateDMY) (llm : LLMOutcome)
    (loads : Str → Option PyVal) : Option Dict :=
  if extractorAvailable then
    some (extract_workday_data text reference_date today llm loads)
  else none

/-- `VoiceProcessor.process_audio`.

`transcription` is the outcome of `_transcribe_audio` (`none` models
its failure path, which returns `None`); `if not text` treats both
`None` and the empty transcript as failure.  The save-for-testing side
effect writes a file and never affects the returned value, so it is
omitted from the model. -/
def process_audio (extractorAvailable : Bool) (transcription : Option Str)
    (reference_date : Option Str) (today : DateDMY) (llm : LLMOutcome)
    (loads : Str → Option PyVal) : Bool × Option Str × Option Dict :=
  match transcription with
  | none => (false, none, none)
  | some text =>
    if text = [] then (false, none, none)
    else
      (true, some text,
        vp_extract_workday_data extractorAvailable text reference_date today llm loads)

/-! ### `data_manager.py` — `save_workday_data` and `is_sheets_available` -/

/-- The sheets manager slot of `DataManager`: `none` when
`GoogleSheetsManager` initialization failed or sheets are disabled;
otherwise the observable outcome of one `add_workday_summary` call
(`Except.error ()` = the write raised, `Except.ok b` = it returned `b`). -/
abbrev SheetsManager := Option (Except Unit Bool)

/-- `DataManager.is_sheets_available`. -/
def is_sheets_available (sheets_manager : SheetsManager) : Bool :=
  sheets_manager.isSome

/-- The default status tag `save_workday_data` attaches. -/
def pendingStatus : Str := "⏳ ממתין לאישור".data

/-- The enriched copy `save_workday_data` builds:
`workday_data.copy()` plus `raw_transcription` / `recording_date` when
truthy, plus the default `status`. -/
def enrichWorkdayData (wd : Dict) (raw_transcription recording_date : Option Str) :
    Dict :=
  let e1 := match raw_transcription with
    | some r => if r = [] then wd else setKey wd "raw_transcription".data r
    | none => wd
  let e2 := match recording_date with
    | some r => if r = [] then e1 else setKey e1 "recording_date".data r
    | none => e1
  setKey e2 "status".data pendingStatus

/-- `DataManager.save_workday_data`.

Returned triple: (the boolean result, the caller's `workday_data`
mapping as observable after the call, the argument passed to
`add_workday_summary` — `none` when no write was attempted).  The
source mutates only `enriched_data = workday_data.copy()`, never
`workday_data` itself, which the second component records; the
`try/except` around the write maps a raising backend to `False`. -/
def save_workday_data (sheets_manager : SheetsManager)
    (workday_data : Option Dict) (raw_transcription recording_date : Option Str) :
    Bool × Option Dict × Option Dict :=
  match workday_data with
  | none => (false, none, none)
  | some wd =>
    if sheets_manager.isNone ∨ wd = [] then (false, some wd, none)
    else
      let enriched := enrichWorkdayData wd raw_transcription recording_date
      match sheets_manager with
      | none => (false, some wd, none)
      | some (.error _) => (false, some wd, some enriched)
      | some (.ok b) => (b, some wd, some enriched)

/-! ### `cron_processor.py` — the Update Reconciler -/

/-- Outcome of `_process_voice_message` for one voice message: the body
raised (caught by its own handler, which increments `errors`), or
`process_audio` returned success (counted in `processed_voice`), or it
returned failure (only logged). -/
inductive VoiceOutcome where
  | raisesExn
  | processedOk
  | processFailed
deriving DecidableEq

/-- A Telegram message as the reconciler observes it: `date` is the
message timestamp (`none` models `message.date is None`), `voice`
whether a voice attachment is present, `outcome` what processing it
would do. -/
structure TgMessage where
  date : Option Nat
  voice : Bool
  outcome : VoiceOutcome
deriving DecidableEq

/-- One entry of the `get_updates` page. -/
structure TgUpdate where
  update_id : Nat
  message : Option TgMessage
deriving DecidableEq

/-- The run statistics dict (`start_time`/`end_time`/`duration` are
wall-clock readings and are not modelled; `messages_processed` is
modelled by its length). -/
structure RunStats where
  total_messages : Nat
  voice_messages : Nat
  processed_voice : Nat
  errors : Nat
  messages_processed : Nat
deriving DecidableEq

def initialStats : RunStats := ⟨0, 0, 0, 0, 0⟩

/-- `CronMessageProcessor._fetch_recent_updates`: filter the raw
`get_updates` page to messages whose timestamp is strictly newer than
the 24-hour cutoff (`page` is the transport's successful reply; a
`TelegramError` yields the empty list, indistinguishable from an empty
page for the caller). -/
def fetch_recent_updates (page : List TgUpdate) (cutoff : Nat) : List TgUpdate :=
  page.filter (fun u =>
    match u.message with
    | some msg =>
      match msg.date with
      | some t => decide (t > cutoff)
      | none => false
    | none => false)

/-- `CronMessageProcessor._process_voice_message`: its internal
`try/except` turns a raising body into `errors += 1`; a successful
`process_audio` increments `processed_voice` and appends a summary. -/
def process_voice_message (msg : TgMessage) (stats : RunStats) : RunStats :=
  match msg.outcome with
  | .raisesExn => { stats with errors := stats.errors + 1 }
  | .processedOk =>
    { stats with
        processed_voice := stats.processed_voice + 1,
        messages_processed := stats.messages_processed + 1 }
  | .processFailed => stats

/-- `CronMessageProcessor._process_single_update`. -/
def process_single_update (u : TgUpdate) (stats : RunStats) : RunStats :=
  match u.message with
  | none => stats
  | some msg =>
    if msg.voice then
      process_voice_message msg { stats with voice_messages := stats.voice_messages + 1 }
    else stats

/-- `max(update.update_id for update in updates)` (Python `max` on a
non-empty list; `0` is never returned on the non-empty lists it is
applied to unless an id is 0). -/
def maxUpdateId (updates : List TgUpdate) : Nat :=
  updates.foldl (fun a u => max a u.update_id) 0

/-- `CronMessageProcessor.fetch_and_process_recent_messages`.

Returns the stats dict and the new `last_processed_update_id`.  The
per-update `try/except` in the loop is dead in the model because
`_process_voice_message` already catches every exception of its body;
the outer `try/except` is likewise unreachable once the fetch outcome
is given.  The offset assignment happens after the processing loop, and
only when the filtered update list is non-empty. -/
def fetch_and_process_recent_messages (page : List TgUpdate) (cutoff : Nat)
    (last_processed_update_id : Nat) : RunStats × Nat :=
  let updates := fetch_recent_updates page cutoff
  if updates = [] then (initialStats, last_processed_update_id)
  else
    let stats1 := { initialStats with total_messages := updates.length }
    let stats2 := updates.foldl (fun s u => process_single_update u s) stats1
    (stats2, maxUpdateId updates)

/-! ### `hebrew_console.py` — `format_hebrew_for_console` -/

/-- `_contains_hebrew`: does any character fall in the Hebrew Unicode
range 0x0590..0x05FF. -/
def contains_hebrew (cs : Str) : Bool :=
  cs.any (fun c => 0x0590 ≤ c.toNat && c.toNat ≤ 0x05FF)

/-- Worker for `str.split()`: `acc` holds the current word reversed. -/
def pySplitAux : Str → Str → List Str
  | [], acc => if acc.isEmpty then [] else [acc.reverse]
  | c :: cs, acc =>
    if isSpaceChar c then
      if acc.isEmpty then pySplitAux cs [] else acc.reverse :: pySplitAux cs []
    else pySplitAux cs (c :: acc)

/-- Python `str.split()` with no arguments: maximal runs of
non-whitespace characters. -/
def pySplit (cs : Str) : List Str := pySplitAux cs []

/-- `' '.join(words)`. -/
def joinWords : List Str → Str
  | [] => []
  | [w] => w
  | w :: x :: ws => w ++ ' ' :: joinWords (x :: ws)

/-- The per-word transformation of the loop in
`format_hebrew_for_console`: reverse words containing Hebrew, keep the
rest. -/
def shapeWord (w : Str) : Str := if contains_hebrew w then w.reverse else w

/-- `format_hebrew_for_console`. -/
def format_hebrew_for_console (text : Str) : Str :=
  if text.isEmpty then text
  else if ¬ contains_hebrew text then text
  else joinWords ((pySplit text).map shapeWord)

/-! ### Auxiliary definitions used in claim statements -/

/-- Specification-side weekday-name table: Hebrew name of the weekday
with Python `weekday()` index `k` (0 = Monday, ..., 6 = Sunday; in
Hebrew, Sunday is ראשון "first" and Monday is שני "second"). -/
def hebrewWeekdayName : Nat → Str
  | 0 => "שני".data
  | 1 => "שלישי".data
  | 2 => "רביעי".data
  | 3 => "חמישי".data
  | 4 => "שישי".data
  | 5 => "שבת".data
  | 6 => "ראשון".data
  | _ => []

/-- A word list with non-empty, whitespace-free words. -/
def SingleSpacedWords (ws : List Str) : Prop :=
  ∀ w ∈ ws, w ≠ [] ∧ ∀ c ∈ w, isSpaceChar c = false

/-- A string whose words are separated by single spaces (with no
leading or trailing whitespace): exactly the strings of the form
`' '.join(words)` for non-empty whitespace-free words. -/
def SingleSpaced (text : Str) : Prop :=
  ∃ ws, SingleSpacedWords ws ∧ text = joinWords ws

/-- An update that carries a voice message. -/
def isVoiceUpdate (u : TgUpdate) : Bool :=
  match u.message with
  | some msg => msg.voice
  | none => false

/-- An update that carries a voice message with the given processing
outcome. -/
def voiceWithOutcome (o : VoiceOutcome) (u : TgUpdate) : Bool :=
  match u.message with
  | some msg => msg.voice && decide (msg.outcome = o)
  | none => false

/-! ## Lemmas about digit rendering and `strptime` field parsing -/

theorem isDigit_digitChar : ∀ k, k < 10 → (Nat.digitChar k).isDigit = true := by
  decide

theorem toNat_digitChar : ∀ k, k < 10 → (Nat.digitChar k).toNat = 48 + k := by
  decide

/-- The first character of the rest of the input is not a digit. -/
def headNotDigit : Str → Prop
  | [] => True
  | c :: _ => c.isDigit = false

theorem headNotDigit_cons (c : Char) (xs : Str) (h : c.isDigit = false) :
    headNotDigit (c :: xs) := h

theorem span_pad2 (n : Nat) (hn : n ≤ 99) (rest : Str) (hr : headNotDigit rest) :
    (pad2 n ++ rest).takeWhile Char.isDigit = pad2 n ∧
    (pad2 n ++ rest).dropWhile Char.isDigit = rest := by
  have h1 : (Nat.digitChar (n / 10)).isDigit = true := isDigit_digitChar _ (by omega)
  have h2 : (Nat.digitChar (n % 10)).isDigit = true := isDigit_digitChar _ (by omega)
  cases rest with
  | nil => simp [pad2, List.takeWhile_cons, List.dropWhile_cons, h1, h2, List.takeWhile, List.dropWhile]
  | cons c cs =>
    have hc : c.isDigit = false := hr
    simp [pad2, List.takeWhile_cons, List.dropWhile_cons, h1, h2, hc]

theorem digitsToNat_pad2 (n : Nat) (hn : n ≤ 99) : digitsToNat (pad2 n) = n := by
  unfold digitsToNat pad2
  simp only [List.foldl]
  rw [toNat_digitChar _ (by omega), toNat_digitChar _ (by omega)]
  omega

theorem numField_pad2 (minL maxL lo hi n : Nat) (rest : Str) (hn : n ≤ 99)
    (hr : headNotDigit rest) (h1 : minL ≤ 2) (h2 : 2 ≤ maxL)
    (h3 : lo ≤ n) (h4 : n ≤ hi) :
    numField minL maxL lo hi (pad2 n ++ rest) = some (n, rest) := by
  have hs := span_pad2 n hn rest hr
  unfold numField
  simp only [hs.1, hs.2, digitsToNat_pad2 n hn]
  rw [if_pos]
  exact ⟨by simpa [pad2] using h1, by simpa [pad2] using h2, h3, h4⟩

theorem span_pad4 (n : Nat) (hn : n ≤ 9999) (rest : Str) (hr : headNotDigit rest) :
    (pad4 n ++ rest).takeWhile Char.isDigit = pad4 n ∧
    (pad4 n ++ rest).dropWhile Char.isDigit = rest := by
  have h1 : (Nat.digitChar (n / 1000)).isDigit = true := isDigit_digitChar _ (by omega)
  have h2 : (Nat.digitChar (n / 100 % 10)).isDigit = true := isDigit_digitChar _ (by omega)
  have h3 : (Nat.digitChar (n / 10 % 10)).isDigit = true := isDigit_digitChar _ (by omega)
  have h4 : (Nat.digitChar (n % 10)).isDigit = true := isDigit_digitChar _ (by omega)
  cases rest with
  | nil => simp [pad4, List.takeWhile_cons, List.dropWhile_cons, h1, h2, h3, h4,
      List.takeWhile, List.dropWhile]
  | cons c cs =>
    have hc : c.isDigit = false := hr
    simp [pad4, List.takeWhile_cons, List.dropWhile_cons, h1, h2, h3, h4, hc]

theorem digitsToNat_pad4 (n : Nat) (hn : n ≤ 9999) : digitsToNat (pad4 n) = n := by
  unfold digitsToNat pad4
  simp only [List.foldl]
  rw [toNat_digitChar _ (by omega), toNat_digitChar _ (by omega),
    toNat_digitChar _ (by omega), toNat_digitChar _ (by omega)]
  omega

theorem numField_pad4 (lo hi n : Nat) (hn : n ≤ 9999)
    (h3 : lo ≤ n) (h4 : n ≤ hi) :
    numField 4 4 lo hi (pad4 n) = some (n, []) := by
  have hs := span_pad4 n hn [] trivial
  rw [List.append_nil] at hs
  unfold numField
  simp only [hs.1, hs.2, digitsToNat_pad4 n hn]
  rw [if_pos]
  exact ⟨by simp [pad4], by simp [pad4], h3, h4⟩

theorem numField_pad2_nil (minL maxL lo hi n : Nat) (hn : n ≤ 99)
    (h1 : minL ≤ 2) (h2 : 2 ≤ maxL) (h3 : lo ≤ n) (h4 : n ≤ hi) :
    numField minL maxL lo hi (pad2 n) = some (n, []) := by
  have := numField_pad2 minL maxL lo hi n [] hn trivial h1 h2 h3 h4
  rwa [List.append_nil] at this

theorem days_in_month_le_31 (m y : Nat) : days_in_month m y ≤ 31 := by
  unfold days_in_month
  split <;> first | omega | (split <;> omega)

theorem parse_dmy_renderDate (d m y : Nat) (h : validDate d m y) :
    parse_dmy '/' (renderDate d m y) = some (d, m, y) := by
  obtain ⟨h1, h2, h3, h4, h5, h6⟩ := h
  have hd31 : d ≤ 31 := le_trans h2 (days_in_month_le_31 m y)
  have e1 : numField 1 2 1 31 (pad2 d ++ '/' :: (pad2 m ++ '/' :: pad4 y))
      = some (d, '/' :: (pad2 m ++ '/' :: pad4 y)) :=
    numField_pad2 1 2 1 31 d ('/' :: (pad2 m ++ '/' :: pad4 y))
      (by omega) (headNotDigit_cons '/' _ (by decide)) (by omega) (by omega) h1 hd31
  have e2 : numField 1 2 1 12 (pad2 m ++ '/' :: pad4 y) = some (m, '/' :: pad4 y) :=
    numField_pad2 1 2 1 12 m ('/' :: pad4 y)
      (by omega) (headNotDigit_cons '/' _ (by decide)) (by omega) (by omega) h3 h4
  have e3 : numField 4 4 1 9999 (pad4 y) = some (y, []) :=
    numField_pad4 1 9999 y h6 h5 h6
  unfold renderDate parse_dmy
  simp [e1, e2, e3, expectCh, h2]

theorem format_date_renderDate (d m y : Nat) (h : validDate d m y) :
    format_date (renderDate d m y) = renderDate d m y := by
  unfold format_date dateFormats
  rw [List.findSome?_cons]
  rw [parse_dmy_renderDate d m y h]

theorem parse_hm_renderTime (h mi : Nat) (hh : h ≤ 23) (hm : mi ≤ 59) :
    parse_hm ':' (renderTime h mi) = some (h, mi) := by
  have e1 : numField 1 2 0 23 (pad2 h ++ ':' :: pad2 mi) = some (h, ':' :: pad2 mi) :=
    numField_pad2 1 2 0 23 h (':' :: pad2 mi)
      (by omega) (headNotDigit_cons ':' _ (by decide)) (by omega) (by omega) (by omega) hh
  have e2 : numField 1 2 0 59 (pad2 mi) = some (mi, []) :=
    numField_pad2_nil 1 2 0 59 mi (by omega) (by omega) (by omega) (by omega) hm
  unfold renderTime parse_hm
  simp [e1, e2, expectCh]

theorem format_time_renderTime (h mi : Nat) (hh : h ≤ 23) (hm : mi ≤ 59) :
    format_time (renderTime h mi) = renderTime h mi := by
  unfold format_time timeFormats
  rw [List.findSome?_cons]
  rw [parse_hm_renderTime h mi hh hm]

/-! ## Lemmas about `pySplit` / `joinWords` / `shapeWord` -/

theorem pySplitAux_word (w : Str) (hw : ∀ c ∈ w, isSpaceChar c = false) :
    ∀ (cs acc : Str), pySplitAux (w ++ cs) acc = pySplitAux cs (w.reverse ++ acc) := by
  induction w with
  | nil => intro cs acc; simp
  | cons c w ih =>
    intro cs acc
    have hc : isSpaceChar c = false := hw c (List.mem_cons_self c w)
    have hw2 : ∀ x ∈ w, isSpaceChar x = false :=
      fun x hx => hw x (List.mem_cons_of_mem c hx)
    simp only [List.cons_append, pySplitAux, hc, Bool.false_eq_true, if_false,
      List.append_eq]
    rw [ih hw2 cs (c :: acc)]
    simp [List.append_assoc]

theorem pySplit_joinWords (ws : List Str) (h : SingleSpacedWords ws) :
    pySplit (joinWords ws) = ws := by
  induction ws with
  | nil => rfl
  | cons w ws ih =>
    have hw := h w (List.mem_cons_self w ws)
    have hrev : ¬ w.reverse.isEmpty = true := by
      simp [List.isEmpty_iff]
      exact hw.1
    cases ws with
    | nil =>
      show pySplitAux (joinWords [w]) [] = [w]
      have : joinWords [w] = w ++ [] := by simp [joinWords]
      rw [this, pySplitAux_word w hw.2]
      simp only [pySplitAux, List.append_nil]
      rw [if_neg hrev]
      simp
    | cons x ws2 =>
      have h2 : SingleSpacedWords (x :: ws2) :=
        fun v hv => h v (List.mem_cons_of_mem w hv)
      show pySplitAux (joinWords (w :: x :: ws2)) [] = w :: x :: ws2
      have : joinWords (w :: x :: ws2) = w ++ ' ' :: joinWords (x :: ws2) := rfl
      rw [this, pySplitAux_word w hw.2]
      simp only [List.append_nil, pySplitAux]
      rw [if_pos (by decide), if_neg hrev]
      rw [show pySplitAux (joinWords (x :: ws2)) [] = pySplit (joinWords (x :: ws2)) from rfl]
      rw [ih h2]
      simp

theorem pySplitAux_sound (cs : Str) :
    ∀ (acc : Str), (∀ c ∈ acc, isSpaceChar c = false) →
      ∀ w ∈ pySplitAux cs acc, w ≠ [] ∧ ∀ c ∈ w, isSpaceChar c = false ∧ (c ∈ cs ∨ c ∈ acc) := by
  induction cs with
  | nil =>
    intro acc hacc w hw
    unfold pySplitAux at hw
    by_cases ha : acc.isEmpty
    · simp [ha] at hw
    · rw [if_neg ha] at hw
      simp at hw
      subst hw
      refine ⟨by simpa [List.isEmpty_iff] using ha, fun c hc => ?_⟩
      rw [List.mem_reverse] at hc
      exact ⟨hacc c hc, Or.inr hc⟩
  | cons b cs ih =>
    intro acc hacc w hw
    unfold pySplitAux at hw
    by_cases hb : isSpaceChar b
    · rw [if_pos hb] at hw
      by_cases ha : acc.isEmpty
      · rw [if_pos ha] at hw
        obtain ⟨hne, hall⟩ := ih [] (by simp) w hw
        exact ⟨hne, fun c hc => ⟨(hall c hc).1,
          by rcases (hall c hc).2 with h | h
             · exact Or.inl (List.mem_cons_of_mem b h)
             · simp at h⟩⟩
      · rw [if_neg ha] at hw
        rcases List.mem_cons.mp hw with rfl | hw2
        · refine ⟨by simpa [List.isEmpty_iff] using ha, fun c hc => ?_⟩
          rw [List.mem_reverse] at hc
          exact ⟨hacc c hc, Or.inr hc⟩
        · obtain ⟨hne, hall⟩ := ih [] (by simp) w hw2
          exact ⟨hne, fun c hc => ⟨(hall c hc).1,
            by rcases (hall c hc).2 with h | h
               · exact Or.inl (List.mem_cons_of_mem b h)
               · simp at h⟩⟩
    · rw [if_neg hb] at hw
      have hacc2 : ∀ c ∈ b :: acc, isSpaceChar c = false := by
        intro c hc
        rcases List.mem_cons.mp hc with rfl | hc2
        · simpa using hb
        · exact hacc c hc2
      obtain ⟨hne, hall⟩ := ih (b :: acc) hacc2 w hw
      refine ⟨hne, fun c hc => ⟨(hall c hc).1, ?_⟩⟩
      rcases (hall c hc).2 with h | h
      · exact Or.inl (List.mem_cons_of_mem b h)
      · rcases List.mem_cons.mp h with rfl | h2
        · exact Or.inl (List.mem_cons_self c cs)
        · exact Or.inr h2

theorem pySplit_sound (cs : Str) :
    ∀ w ∈ pySplit cs, w ≠ [] ∧ ∀ c ∈ w, isSpaceChar c = false ∧ c ∈ cs := by
  intro w hw
  obtain ⟨hne, hall⟩ := pySplitAux_sound cs [] (by simp) w hw
  exact ⟨hne, fun c hc => ⟨(hall c hc).1, by
    rcases (hall c hc).2 with h | h
    · exact h
    · simp at h⟩⟩

/-- A character of the Hebrew Unicode block 0x0590..0x05FF. -/
theorem contains_hebrew_reverse (w : Str) :
    contains_hebrew w.reverse = contains_hebrew w := by
  unfold contains_hebrew
  simp [List.any_eq_true]

theorem shapeWord_shapeWord (w : Str) : shapeWord (shapeWord w) = w := by
  unfold shapeWord
  by_cases h : contains_hebrew w
  · simp [h, contains_hebrew_reverse]
  · simp [h]

theorem shapeWord_ne_nil (w : Str) (h : w ≠ []) : shapeWord w ≠ [] := by
  unfold shapeWord
  split
  · simpa using h
  · exact h

theorem mem_shapeWord (c : Char) (w : Str) : c ∈ shapeWord w ↔ c ∈ w := by
  unfold shapeWord
  split <;> simp

theorem mem_joinWords_of_mem (ws : List Str) (w : Str) (c : Char)
    (hw : w ∈ ws) (hc : c ∈ w) : c ∈ joinWords ws := by
  induction ws with
  | nil => simp at hw
  | cons v ws ih =>
    cases ws with
    | nil =>
      simp at hw
      subst hw
      simpa [joinWords] using hc
    | cons x ws2 =>
      rcases List.mem_cons.mp hw with rfl | hw2
      · show c ∈ w ++ ' ' :: joinWords (x :: ws2)
        exact List.mem_append_left _ hc
      · show c ∈ v ++ ' ' :: joinWords (x :: ws2)
        refine List.mem_append_right _ (List.mem_cons_of_mem _ (ih hw2))

theorem mem_of_mem_joinWords (ws : List Str) (c : Char)
    (hc : c ∈ joinWords ws) : c = ' ' ∨ ∃ w ∈ ws, c ∈ w := by
  induction ws with
  | nil => simp [joinWords] at hc
  | cons v ws ih =>
    cases ws with
    | nil =>
      right
      exact ⟨v, List.mem_cons_self v [], by simpa [joinWords] using hc⟩
    | cons x ws2 =>
      have : c ∈ v ++ ' ' :: joinWords (x :: ws2) := hc
      rcases List.mem_append.mp this with h | h
      · exact Or.inr ⟨v, List.mem_cons_self v _, h⟩
      · rcases List.mem_cons.mp h with rfl | h2
        · exact Or.inl rfl
        · rcases ih h2 with h3 | ⟨w, hw, hcw⟩
          · exact Or.inl h3
          · exact Or.inr ⟨w, List.mem_cons_of_mem v hw, hcw⟩

/-! ## Lemmas about the reconciler's statistics loop -/

theorem foldl_process_single_update (l : List TgUpdate) :
    ∀ s : RunStats,
      (l.foldl (fun s u => process_single_update u s) s).total_messages = s.total_messages ∧
      (l.foldl (fun s u => process_single_update u s) s).voice_messages
        = s.voice_messages + l.countP isVoiceUpdate ∧
      (l.foldl (fun s u => process_single_update u s) s).processed_voice
        = s.processed_voice + l.countP (voiceWithOutcome .processedOk) ∧
      (l.foldl (fun s u => process_single_update u s) s).errors
        = s.errors + l.countP (voiceWithOutcome .raisesExn) := by
  induction l with
  | nil => intro s; simp
  | cons u l ih =>
    intro s
    have step : ∀ t : RunStats,
        (process_single_update u t).total_messages = t.total_messages ∧
        (process_single_update u t).voice_messages
          = t.voice_messages + (if isVoiceUpdate u then 1 else 0) ∧
        (process_single_update u t).processed_voice
          = t.processed_voice + (if voiceWithOutcome .processedOk u then 1 else 0) ∧
        (process_single_update u t).errors
          = t.errors + (if voiceWithOutcome .raisesExn u then 1 else 0) := by
      intro t
      unfold process_single_update process_voice_message isVoiceUpdate voiceWithOutcome
      rcases u with ⟨uid, msg⟩
      cases msg with
      | none => simp
      | some m =>
        rcases m with ⟨md, mv, mo⟩
        cases mv <;> cases mo <;> simp
    obtain ⟨e1, e2, e3, e4⟩ := step s
    obtain ⟨f1, f2, f3, f4⟩ := ih (process_single_update u s)
    refine ⟨?_, ?_, ?_, ?_⟩ <;>
      simp only [List.foldl_cons, List.countP_cons, f1, f2, f3, f4, e1, e2, e3, e4] <;>
      split <;> omega

/-- The source's `hebrew_days` table agrees with the named
weekday-index mapping (Monday = שני, ..., Sunday = ראשון). -/
theorem hebrew_days_getD (k : Nat) (hk : k < 7) :
    hebrew_days.getD k [] = hebrewWeekdayName k := by
  interval_cases k <;> rfl

theorem pyWeekday_lt_7 (d m y : Nat) : pyWeekday d m y < 7 :=
  Nat.mod_lt _ (by omega)

theorem list_map_eq_self {α : Type} (l : List α) (f : α → α)
    (h : ∀ a ∈ l, f a = a) : l.map f = l := by
  induction l with
  | nil => rfl
  | cons a l ih =>
    simp only [List.map_cons, h a (List.mem_cons_self a l),
      ih (fun b hb => h b (List.mem_cons_of_mem a hb))]

/-! ## Claim theorems -/

/-- C1, counterexample: with a page holding update 1 (inside the
24-hour window) and update 2 (outside the window), the offset after the
run is 1, not the page maximum 2 — a message filtered out of the
look-back window does NOT count toward the offset, contradicting the
claim as stated. -/
theorem C1_counterexample :
    fetch_recent_updates
        [⟨1, some ⟨some 100, true, .processedOk⟩⟩,
         ⟨2, some ⟨some 5, true, .processedOk⟩⟩] 50 ≠ [] ∧
    maxUpdateId
        [⟨1, some ⟨some 100, true, .processedOk⟩⟩,
         ⟨2, some ⟨some 5, true, .processedOk⟩⟩] = 2 ∧
    (fetch_and_process_recent_messages
        [⟨1, some ⟨some 100, true, .processedOk⟩⟩,
         ⟨2, some ⟨some 5, true, .processedOk⟩⟩] 50 0).2 = 1 ∧
    (fetch_and_process_recent_messages
        [⟨1, some ⟨some 100, true, .processedOk⟩⟩,
         ⟨2, some ⟨some 5, true, .processedOk⟩⟩] 50 0).2 ≠
      maxUpdateId
        [⟨1, some ⟨some 100, true, .processedOk⟩⟩,
         ⟨2, some ⟨some 5, true, .processedOk⟩⟩] := by
  decide

/-- C1, amended: after one run in which the 24-hour-filtered update
list is non-empty, the offset equals the maximum update identifier of
the FILTERED list (messages that errored during processing still count,
since the maximum ignores processing outcomes; messages dropped by the
window filter do not), and it is assigned only after the per-message
loop has completed. -/
theorem C1_offset_advance_amended (page : List TgUpdate) (cutoff prev : Nat)
    (h : fetch_recent_updates page cutoff ≠ []) :
    (fetch_and_process_recent_messages page cutoff prev).2
      = maxUpdateId (fetch_recent_updates page cutoff) := by
  simp only [fetch_and_process_recent_messages]
  rw [if_neg h]

/-- C1 witness: a concrete batch with one erroring voice message (id 3)
and one successful one (id 7), both in the window: the offset advances
to 7, the maximum over the filtered batch, errors included. -/
theorem C1_offset_advance_witness :
    (fetch_and_process_recent_messages
        [⟨3, some ⟨some 100, true, .raisesExn⟩⟩,
         ⟨7, some ⟨some 200, true, .processedOk⟩⟩] 50 0).2 = 7 :=
  (C1_offset_advance_amended
      [⟨3, some ⟨some 100, true, .raisesExn⟩⟩,
       ⟨7, some ⟨some 200, true, .processedOk⟩⟩] 50 0 (by decide)).trans
    (by decide)

/-- C4, counterexample: when the data extractor failed to initialize
(`self.data_extractor is None`) and transcription succeeds,
`process_audio` returns `(True, transcript, None)` — the record is
null, contradicting the claim that the record is always non-null once
transcription succeeded. -/
theorem C4_counterexample :
    process_audio false (some "הקלטה".data) none ⟨12, 10, 2026⟩ .callFailed
        (fun _ => none)
      = (true, some "הקלטה".data, none) := rfl

/-- C4, amended: if transcription failed (or yielded the empty, falsy
transcript), `process_audio` returns `(False, None, None)`; if
transcription succeeded with a non-empty transcript and the data
extractor was initialized, it returns `(True, transcript, record)` with
a non-null record (extraction failure already degraded to the fallback
inside `extract_workday_data`); but when the extractor is unavailable
the record is `None` even on success. -/
theorem C4_process_audio_amended (avail : Bool) (t : Option Str) (rd : Option Str)
    (today : DateDMY) (llm : LLMOutcome) (loads : Str → Option PyVal) :
    (t = none ∨ t = some [] →
      process_audio avail t rd today llm loads = (false, none, none)) ∧
    (∀ s, t = some s → s ≠ [] → avail = true →
      process_audio avail t rd today llm loads
        = (true, some s, some (extract_workday_data s rd today llm loads))) ∧
    (∀ s, t = some s → s ≠ [] → avail = false →
      process_audio avail t rd today llm loads = (true, some s, none)) := by
  refine ⟨?_, ?_, ?_⟩
  · rintro (rfl | rfl) <;> simp [process_audio]
  · rintro s rfl hs rfl
    simp [process_audio, vp_extract_workday_data, hs]
  · rintro s rfl hs rfl
    simp [process_audio, vp_extract_workday_data, hs]

/-- C4 witness: with the extractor initialized, a non-empty transcript
and a failing model call, `process_audio` still returns success with a
(fallback) record. -/
theorem C4_process_audio_witness :
    process_audio true (some "שלום".data) none ⟨12, 10, 2026⟩ .callFailed
        (fun _ => none)
      = (true, some "שלום".data,
         some (extract_workday_data "שלום".data none ⟨12, 10, 2026⟩ .callFailed
           (fun _ => none))) :=
  (C4_process_audio_amended true (some "שלום".data) none ⟨12, 10, 2026⟩ .callFailed
      (fun _ => none)).2.1 "שלום".data rfl (by decide) rfl

/-- C6: `save_workday_data` returns `False` without attempting any
backend write when the store is unavailable or the record is
empty/`None`, and returns `False` (instead of propagating the
exception) when the backend write raises.  The third component of the
modelled result is the argument of the attempted `add_workday_summary`
call (`none` = no write attempted). -/
theorem C6_save_guards (mgr : SheetsManager) (wd : Option Dict)
    (raw recd : Option Str) :
    (is_sheets_available mgr = false →
      save_workday_data mgr wd raw recd = (false, wd, none)) ∧
    (wd = none ∨ wd = some [] →
      (save_workday_data mgr wd raw recd).1 = false ∧
      (save_workday_data mgr wd raw recd).2.2 = none) ∧
    (mgr = some (Except.error ()) →
      (save_workday_data mgr wd raw recd).1 = false) := by
  refine ⟨?_, ?_, ?_⟩
  · intro h
    rcases mgr with _ | e
    · rcases wd with _ | w <;> simp [save_workday_data]
    · simp [is_sheets_available] at h
  · rintro (rfl | rfl)
    · simp [save_workday_data]
    · rcases mgr with _ | e <;> simp [save_workday_data]
  · rintro rfl
    rcases wd with _ | w
    · simp [save_workday_data]
    · by_cases hw : w = [] <;> simp [save_workday_data, hw]

/-- C6 witness: store unavailable, non-empty record: the save returns
`False` and no write is attempted. -/
theorem C6_save_guards_witness :
    save_workday_data none (some [(dateKey, "01/01/2025".data)]) none none
      = (false, some [(dateKey, "01/01/2025".data)], none) :=
  (C6_save_guards none (some [(dateKey, "01/01/2025".data)]) none none).1 rfl

/-- C7: per-message exceptions are isolated — over any fetched batch,
the run's error counter equals the number of voice messages whose
processing raised, the processed counter equals the number of voice
messages processed successfully, and the voice counter counts all voice
messages (so later messages are not skipped by an earlier exception);
the run always returns its stats.  In particular, for a batch of 5
voice messages where exactly message 3 raises, `processed_voice` is 4
and `errors` is exactly 1. -/
theorem C7_error_isolation (page : List TgUpdate) (cutoff prev : Nat) :
    ((fetch_and_process_recent_messages page cutoff prev).1.errors
        = (fetch_recent_updates page cutoff).countP (voiceWithOutcome .raisesExn) ∧
     (fetch_and_process_recent_messages page cutoff prev).1.processed_voice
        = (fetch_recent_updates page cutoff).countP (voiceWithOutcome .processedOk) ∧
     (fetch_and_process_recent_messages page cutoff prev).1.voice_messages
        = (fetch_recent_updates page cutoff).countP isVoiceUpdate) ∧
    ((fetch_and_process_recent_messages
        [⟨1, some ⟨some 10, true, .processedOk⟩⟩,
         ⟨2, some ⟨some 10, true, .processedOk⟩⟩,
         ⟨3, some ⟨some 10, true, .raisesExn⟩⟩,
         ⟨4, some ⟨some 10, true, .processedOk⟩⟩,
         ⟨5, some ⟨some 10, true, .processedOk⟩⟩] 0 0).1.processed_voice = 4 ∧
     (fetch_and_process_recent_messages
        [⟨1, some ⟨some 10, true, .processedOk⟩⟩,
         ⟨2, some ⟨some 10, true, .processedOk⟩⟩,
         ⟨3, some ⟨some 10, true, .raisesExn⟩⟩,
         ⟨4, some ⟨some 10, true, .processedOk⟩⟩,
         ⟨5, some ⟨some 10, true, .processedOk⟩⟩] 0 0).1.errors = 1) := by
  constructor
  · by_cases h : fetch_recent_updates page cutoff = []
    · simp [fetch_and_process_recent_messages, h, initialStats]
    · have hf := foldl_process_single_update (fetch_recent_updates page cutoff)
        { initialStats with total_messages := (fetch_recent_updates page cutoff).length }
      simp only [fetch_and_process_recent_messages]
      rw [if_neg h]
      refine ⟨?_, ?_, ?_⟩
      · simpa [initialStats] using hf.2.2.2
      · simpa [initialStats] using hf.2.2.1
      · simpa [initialStats] using hf.2.1
  · constructor <;> decide

/-- C9: `save_workday_data` does not mutate its input mapping — the
caller's dict after the call is exactly the dict passed in (the
source only ever writes into `enriched_data = workday_data.copy()`),
and whenever a write is attempted its argument is the enriched copy
carrying the pipeline-attached fields. -/
theorem C9_save_no_mutation (mgr : SheetsManager) (wd : Dict)
    (raw recd : Option Str) :
    (save_workday_data mgr (some wd) raw recd).2.1 = some wd ∧
    (save_workday_data mgr none raw recd).2.1 = none ∧
    ((save_workday_data mgr (some wd) raw recd).2.2 = none ∨
     (save_workday_data mgr (some wd) raw recd).2.2
        = some (enrichWorkdayData wd raw recd)) := by
  rcases mgr with _ | e
  · simp [save_workday_data]
  · rcases e with e | b <;> by_cases hw : wd = [] <;>
      simp [save_workday_data, hw]

/-- C3: `extract_workday_data` never raises past its boundary (it is
total by construction of the enclosing `try/except`), and on every
failure mode named by the claim — blank transcript, failed model call,
unparseable reply (including the empty string), non-object JSON reply —
it returns the fallback record, whose fields are all empty except
`date` (the current date rendered DD/MM/YYYY), `work_description` (the
verbatim transcript) and `additional_notes` (the fixed
needs-manual-review marker). -/
theorem C3_extract_fallback (text : Str) (rd : Option Str) (today : DateDMY)
    (llm : LLMOutcome) (loads : Str → Option PyVal) :
    (pyStrip text = [] →
      extract_workday_data text rd today llm loads = create_fallback_data text today) ∧
    (llm = .callFailed →
      extract_workday_data text rd today llm loads = create_fallback_data text today) ∧
    (∀ c, llm = .replied c → parse_json_response (pyStrip c) loads = none →
      extract_workday_data text rd today llm loads = create_fallback_data text today) ∧
    (∀ c, llm = .replied c → parse_json_response (pyStrip c) loads = some .nonObj →
      extract_workday_data text rd today llm loads = create_fallback_data text today) ∧
    lookupD (create_fallback_data text today) dateKey
      = renderDate today.d today.m today.y ∧
    lookupD (create_fallback_data text today) workDescriptionKey = text ∧
    lookupD (create_fallback_data text today) additionalNotesKey = manualReviewMarker ∧
    ∀ k ∈ [dayKey, startTimeKey, endTimeKey, projectNameKey, subProjectKey, workersKey],
      lookupD (create_fallback_data text today) k = [] := by
  refine ⟨?_, ?_, ?_, ?_, rfl, rfl, rfl, ?_⟩
  · intro h
    simp [extract_workday_data, h]
  · rintro rfl
    by_cases hs : pyStrip text = [] <;> simp [extract_workday_data, hs]
  · rintro c rfl hp
    by_cases hs : pyStrip text = [] <;> simp [extract_workday_data, hs, hp]
  · rintro c rfl hp
    by_cases hs : pyStrip text = [] <;> simp [extract_workday_data, hs, hp]
  · intro k hk
    fin_cases hk <;> rfl

/-- C3 witness: a non-blank transcript with a failing model call
produces exactly the fallback record. -/
theorem C3_extract_fallback_witness :
    extract_workday_data "תמלול".data none ⟨12, 10, 2026⟩ .callFailed (fun _ => none)
      = create_fallback_data "תמלול".data ⟨12, 10, 2026⟩ :=
  (C3_extract_fallback "תמלול".data none ⟨12, 10, 2026⟩ .callFailed
    (fun _ => none)).2.1 rfl

theorem format_hebrew_id_of_no_hebrew (text : Str)
    (h : contains_hebrew text = false) :
    format_hebrew_for_console text = text := by
  by_cases he : text.isEmpty = true <;> simp [format_hebrew_for_console, he, h]

theorem format_hebrew_expand (text : Str) (he : ¬ text.isEmpty = true)
    (hh : contains_hebrew text = true) :
    format_hebrew_for_console text = joinWords ((pySplit text).map shapeWord) := by
  simp [format_hebrew_for_console, he, hh]

theorem words_no_hebrew (text : Str) (h : contains_hebrew text = false) :
    ∀ w ∈ pySplit text, contains_hebrew w = false := by
  intro w hw
  by_contra hc
  have hc2 : contains_hebrew w = true := by simpa using hc
  unfold contains_hebrew at hc2 h
  rw [List.any_eq_true] at hc2
  obtain ⟨c, hcw, hcH⟩ := hc2
  have hctext : c ∈ text := ((pySplit_sound text w hw).2 c hcw).2
  have : text.any (fun c => 0x0590 ≤ c.toNat && c.toNat ≤ 0x05FF) = true :=
    List.any_eq_true.mpr ⟨c, hctext, hcH⟩
  rw [h] at this
  exact absurd this (by simp)

theorem shapeWord_words_wf (text : Str) :
    SingleSpacedWords ((pySplit text).map shapeWord) := by
  intro w hw
  rw [List.mem_map] at hw
  obtain ⟨v, hv, rfl⟩ := hw
  have h := pySplit_sound text v hv
  refine ⟨shapeWord_ne_nil v h.1, fun c hc => ?_⟩
  rw [mem_shapeWord] at hc
  exact (h.2 c hc).1

theorem shapeWord_map_wf (ws : List Str) (h : SingleSpacedWords ws) :
    SingleSpacedWords (ws.map shapeWord) := by
  intro w hw
  rw [List.mem_map] at hw
  obtain ⟨v, hv, rfl⟩ := hw
  have hv2 := h v hv
  exact ⟨shapeWord_ne_nil v hv2.1,
    fun c hc => hv2.2 c ((mem_shapeWord c v).mp hc)⟩

theorem contains_hebrew_joinWords_shape (ws : List Str)
    (hh : contains_hebrew (joinWords ws) = true) :
    contains_hebrew (joinWords (ws.map shapeWord)) = true := by
  unfold contains_hebrew at hh ⊢
  rw [List.any_eq_true] at hh ⊢
  obtain ⟨c, hc, hcH⟩ := hh
  have hcs : c ≠ ' ' := by
    intro hsp
    rw [hsp] at hcH
    exact absurd hcH (by decide)
  rcases mem_of_mem_joinWords ws c hc with hsp | ⟨w, hw, hcw⟩
  · exact absurd hsp hcs
  · exact ⟨c, mem_joinWords_of_mem (ws.map shapeWord) (shapeWord w) c
      (List.mem_map_of_mem _ hw) ((mem_shapeWord c w).mpr hcw), hcH⟩

/-- C10: `format_hebrew_for_console` (i) is the identity on every
string without Hebrew-range characters, (ii) on every input transforms
the whitespace-separated word list exactly by reversing the words that
contain a Hebrew character and keeping the others (the word list of the
output is the `shapeWord` image of the word list of the input), and
(iii) is an involution on every string whose words are separated by
single spaces. -/
theorem C10_hebrew_console_shaping (text : Str) :
    (contains_hebrew text = false → format_hebrew_for_console text = text) ∧
    pySplit (format_hebrew_for_console text) = (pySplit text).map shapeWord ∧
    (SingleSpaced text →
      format_hebrew_for_console (format_hebrew_for_console text) = text) := by
  refine ⟨format_hebrew_id_of_no_hebrew text, ?_, ?_⟩
  · by_cases hh : contains_hebrew text = true
    · have he : ¬ text.isEmpty = true := by
        intro h0
        rw [List.isEmpty_iff] at h0
        rw [h0] at hh
        exact absurd hh (by decide)
      rw [format_hebrew_expand text he hh,
        pySplit_joinWords _ (shapeWord_words_wf text)]
    · have hf : contains_hebrew text = false := by simpa using hh
      rw [format_hebrew_id_of_no_hebrew text hf]
      exact (list_map_eq_self (pySplit text) shapeWord (fun w hw => by
        unfold shapeWord
        rw [words_no_hebrew text hf w hw]
        simp)).symm
  · rintro ⟨ws, hws, rfl⟩
    by_cases hh : contains_hebrew (joinWords ws) = true
    · have hsplit : pySplit (joinWords ws) = ws := pySplit_joinWords ws hws
      have he : ¬ (joinWords ws).isEmpty = true := by
        intro h0
        rw [List.isEmpty_iff] at h0
        rw [h0] at hh
        exact absurd hh (by decide)
      have expand1 : format_hebrew_for_console (joinWords ws)
          = joinWords (ws.map shapeWord) := by
        rw [format_hebrew_expand _ he hh, hsplit]
      have hh2 : contains_hebrew (joinWords (ws.map shapeWord)) = true :=
        contains_hebrew_joinWords_shape ws hh
      have he2 : ¬ (joinWords (ws.map shapeWord)).isEmpty = true := by
        intro h0
        rw [List.isEmpty_iff] at h0
        rw [h0] at hh2
        exact absurd hh2 (by decide)
      have hsplit2 : pySplit (joinWords (ws.map shapeWord)) = ws.map shapeWord :=
        pySplit_joinWords _ (shapeWord_map_wf ws hws)
      rw [expand1, format_hebrew_expand _ he2 hh2, hsplit2, List.map_map,
        list_map_eq_self ws (shapeWord ∘ shapeWord)
          (fun w _ => shapeWord_shapeWord w)]
    · have hf : contains_hebrew (joinWords ws) = false := by simpa using hh
      rw [format_hebrew_id_of_no_hebrew _ hf, format_hebrew_id_of_no_hebrew _ hf]

/-- C10 witness: a Hebrew-free string is untouched, and shaping a
single-spaced mixed Hebrew string twice restores it. -/
theorem C10_hebrew_console_witness :
    format_hebrew_for_console "abc 123".data = "abc 123".data ∧
    format_hebrew_for_console
        (format_hebrew_for_console "שלום עולם abc".data) = "שלום עולם abc".data :=
  ⟨(C10_hebrew_console_shaping "abc 123".data).1 (by decide),
   (C10_hebrew_console_shaping "שלום עולם abc".data).2.2
     ⟨["שלום".data, "עולם".data, "abc".data],
      by intro w hw; fin_cases hw <;> exact ⟨by decide, by decide⟩,
      by decide⟩⟩
